import Mathlib

/-!
Verification of the version-compatibility resolver (docker/dockerhub.go) and of
the sql command helpers (readiness prober, interactive attach, one-shot query
exit handling) of the engine repository.

The semantic-version data model and its operations are a shallow embedding of
the vendored blang/semver library as used by the Go source: `parseTolerant`
embeds `semver.ParseTolerant` (and `semver.Parse`), `vcomp` embeds
`Version.Compare`, `versionToString` embeds `Version.String`.  Machine
integers (`uint64`) are modelled as `Nat` with the explicit `2 ^ 64` range
check that `strconv.ParseUint` performs.  Go string comparison is byte-wise
lexicographic; the Lean `String` order is code-point lexicographic, and the two
agree on the ASCII alphanumeric contents that the semver parser admits.
-/

/-- A pre-release component, embedding `semver.PRVersion`: either a numeric
component (`isNum = true`, value in `num`) or an alphanumeric component
(`isNum = false`, text in `str`). -/
structure PRVersion where
  str : String
  num : Nat
  isNum : Bool
deriving DecidableEq, Repr

/-- A parsed semantic version, embedding `semver.Version`. -/
structure Version where
  major : Nat
  minor : Nat
  patch : Nat
  pre : List PRVersion
  build : List String
deriving DecidableEq, Repr

/-- The zero value `semver.Version{}` of the Go struct. -/
def zeroVersion : Version := ⟨0, 0, 0, [], []⟩

/-- The comparison pattern used throughout blang/semver:
`if a == b { 0 } else if a > b { 1 } else { -1 }`, for any linear order. -/
def goCmp {α : Type} [LinearOrder α] (a b : α) : Ordering :=
  if a = b then .eq else if a > b then .gt else .lt

/-- Lexicographic comparison of two lists from an element comparator:
pairwise while both lists last, and with an equal common prefix the longer
list is greater. -/
def lexListCmp {α : Type} (cmp : α → α → Ordering) : List α → List α → Ordering
  | [], [] => .eq
  | [], _ :: _ => .lt
  | _ :: _, [] => .gt
  | a :: as, b :: bs =>
    match cmp a b with
    | .eq => lexListCmp cmp as bs
    | .lt => .lt
    | .gt => .gt

/-- Comparison of characters by code point; on the ASCII contents the semver
parser admits this is exactly the byte comparison Go performs. -/
def charCmp (a b : Char) : Ordering := goCmp a.toNat b.toNat

/-- The Go string comparison (`==` / `>` on `string`): byte-wise
lexicographic. -/
def strCmp (a b : String) : Ordering := lexListCmp charCmp a.data b.data

/-- Embedding of `PRVersion.Compare`: a numeric component is smaller than an
alphanumeric one; numeric components compare by value, alphanumeric ones by
(byte-)lexicographic string order. -/
def prCompare (a b : PRVersion) : Ordering :=
  match a.isNum, b.isNum with
  | true, false => .lt
  | false, true => .gt
  | true, true => goCmp a.num b.num
  | false, false => strCmp a.str b.str

/-- Pairwise comparison of two pre-release lists, embedding the loop and the
tail rules of `Version.Compare`: with an equal common prefix, the longer list
is greater. -/
def listPrCompare : List PRVersion → List PRVersion → Ordering :=
  lexListCmp prCompare

/-- The pre-release part of `Version.Compare`, including the quick checks: a
version without pre-release components is greater than one with them. -/
def preListComp : List PRVersion → List PRVersion → Ordering
  | [], [] => .eq
  | [], _ :: _ => .gt
  | _ :: _, [] => .lt
  | a :: as, b :: bs => listPrCompare (a :: as) (b :: bs)

/-- Embedding of `Version.Compare`: lexicographic on major, minor, patch, then
the pre-release rule.  Build metadata is ignored, as in semver. -/
def vcomp (v o : Version) : Ordering :=
  match goCmp v.major o.major with
  | .eq =>
    match goCmp v.minor o.minor with
    | .eq =>
      match goCmp v.patch o.patch with
      | .eq => preListComp v.pre o.pre
      | c => c
    | c => c
  | c => c

/-- Embedding of `Version.GT` (`Compare == 1`). -/
def vgt (a b : Version) : Bool := decide (vcomp a b = .gt)

/-- Embedding of `Version.LT` (`Compare == -1`). -/
def vlt (a b : Version) : Bool := decide (vcomp a b = .lt)

/-- Embedding of `Version.GTE` (`Compare >= 0`). -/
def vgte (a b : Version) : Bool := decide (vcomp a b ≠ .lt)

/-- Embedding of `Version.Equals` (`Compare == 0`); note that semver equality
ignores build metadata. -/
def vequals (a b : Version) : Bool := decide (vcomp a b = .eq)

/-- Embedding of `PRVersion.String`. -/
def prToString (p : PRVersion) : String :=
  if p.isNum then toString p.num else p.str

/-- Embedding of `Version.String`: `major.minor.patch`, then `-` and the
dot-joined pre-release components, then `+` and the dot-joined build
components. -/
def versionToString (v : Version) : String :=
  toString v.major ++ "." ++ toString v.minor ++ "." ++ toString v.patch
    ++ (if v.pre.isEmpty then "" else "-" ++ String.intercalate "." (v.pre.map prToString))
    ++ (if v.build.isEmpty then "" else "+" ++ String.intercalate "." v.build)

/-! ### The semver parser (embedding `semver.Parse` / `semver.ParseTolerant`) -/

/-- Embedding of `containsOnly(s, numbers)`. -/
def numbersOnly (cs : List Char) : Bool := cs.all (fun c => c.isDigit)

/-- Embedding of `containsOnly(s, alphanum)`: ASCII letters, digits and `-`. -/
def alphanumOnly (cs : List Char) : Bool :=
  cs.all (fun c => c.isAlpha || c.isDigit || c = '-')

/-- Embedding of `hasLeadingZeroes`. -/
def hasLeadingZeroes (cs : List Char) : Bool :=
  decide (cs.length > 1) && decide (cs.head? = some '0')

/-- Numeric value of a digit string. -/
def digitsVal (cs : List Char) : Nat :=
  cs.foldl (fun n c => n * 10 + (c.toNat - 48)) 0

/-- Embedding of `strconv.ParseUint(s, 10, 64)` on the digit strings the
parser feeds it: empty and out-of-range (64-bit) inputs are rejected. -/
def parseUint64 (cs : List Char) : Option Nat :=
  if cs.isEmpty then none
  else if !numbersOnly cs then none
  else if digitsVal cs < 2 ^ 64 then some (digitsVal cs) else none

/-- The checks `semver.Parse` performs on each of major, minor and patch. -/
def parseNumPart (cs : List Char) : Option Nat :=
  if !numbersOnly cs then none
  else if hasLeadingZeroes cs then none
  else parseUint64 cs

/-- Embedding of `semver.NewPRVersion`. -/
def newPRVersion (cs : List Char) : Option PRVersion :=
  if cs.isEmpty then none
  else if numbersOnly cs then
    if hasLeadingZeroes cs then none
    else
      match parseUint64 cs with
      | some n => some ⟨"", n, true⟩
      | none => none
  else if alphanumOnly cs then some ⟨String.mk cs, 0, false⟩
  else none

/-- Splitting on a separator character, as `strings.Split`; the result is
always non-empty. -/
def splitOnChar (sep : Char) : List Char → List (List Char)
  | [] => [[]]
  | c :: cs =>
    if c = sep then [] :: splitOnChar sep cs
    else
      match splitOnChar sep cs with
      | h :: t => (c :: h) :: t
      | [] => [[c]]

/-- Split at the first occurrence of a character, as the
`strings.IndexRune` + slicing pattern of `semver.Parse`. -/
def breakOnChar (sep : Char) : List Char → Option (List Char × List Char)
  | [] => none
  | c :: cs =>
    if c = sep then some ([], cs)
    else
      match breakOnChar sep cs with
      | some (a, b) => some (c :: a, b)
      | none => none

/-- Embedding of `strings.SplitN(s, ".", 3)`: at most three parts, the third
keeping the remainder verbatim. -/
def splitN3 (cs : List Char) : List (List Char) :=
  match splitOnChar '.' cs with
  | a :: b :: c :: rest => [a, b, List.intercalate ['.'] (c :: rest)]
  | ps => ps

/-- Embedding of `semver.Parse`. -/
def parseVersion (cs : List Char) : Option Version :=
  if cs.isEmpty then none
  else
    match splitN3 cs with
    | [p0, p1, p2] =>
      match parseNumPart p0, parseNumPart p1 with
      | some major, some minor =>
        let bsplit :=
          match breakOnChar '+' p2 with
          | some ab => (ab.1, splitOnChar '.' ab.2)
          | none => (p2, [])
        let psplit :=
          match breakOnChar '-' bsplit.1 with
          | some ab => (ab.1, splitOnChar '.' ab.2)
          | none => (bsplit.1, [])
        match parseNumPart psplit.1 with
        | some patch =>
          match psplit.2.mapM newPRVersion with
          | some pres =>
            if bsplit.2.all (fun b => !b.isEmpty && alphanumOnly b) then
              some ⟨major, minor, patch, pres, bsplit.2.map (fun b => String.mk b)⟩
            else none
          | none => none
        | none => none
      | _, _ => none
    | _ => none

/-- Embedding of `semver.ParseTolerant`: trim whitespace, strip one leading
`v`, pad a short `major` or `major.minor` form with zero components (rejecting
short forms that carry pre-release or build metadata), then `semver.Parse`. -/
def parseTolerant (s : String) : Option Version :=
  let cs := (s.data.dropWhile Char.isWhitespace).reverse.dropWhile Char.isWhitespace |>.reverse
  let cs := if cs.head? = some 'v' then cs.tail else cs
  let parts := splitOnChar '.' cs
  if parts.length < 3 then
    match parts.getLast? with
    | none => none
    | some last =>
      if last.any (fun c => c = '+' || c = '-') then none
      else
        parseVersion
          (List.intercalate ['.'] (parts ++ List.replicate (3 - parts.length) ['0']))
  else parseVersion cs

/-! ### docker/dockerhub.go -/

/-- The breaking boundary of `getCompatibleTag`: `Version{Major: cliV.Major+1}`
when `cliV.Major >= 1`, else `Version{Minor: cliV.Minor+1}`. -/
def breakingBoundary (cliV : Version) : Version :=
  if cliV.major ≥ 1 then ⟨cliV.major + 1, 0, 0, [], []⟩ else ⟨0, cliV.minor + 1, 0, [], []⟩

/-- One iteration of the tag loop in `getCompatibleTag` (stable client), acting
on the `(newestV, hasNewBreakingTag)` accumulator. -/
def getCompatibleTagStep (cliV breakingV : Version) (acc : Version × Bool) (tag : String) :
    Version × Bool :=
  match parseTolerant tag with
  | none => acc
  | some v =>
    if !v.pre.isEmpty then acc
    else if vlt v cliV then acc
    else if vgte v breakingV then (acc.1, true)
    else if vgt v acc.1 then (v, acc.2)
    else acc

/-- Embedding of `getCompatibleTag` (stable client) from docker/dockerhub.go. -/
def getCompatibleTag (tags : List String) (cliV : Version) : Version × Bool :=
  tags.foldl (getCompatibleTagStep cliV (breakingBoundary cliV)) (zeroVersion, false)

/-- One iteration of the tag loop in `getCompatibleTagForPre`. -/
def getCompatibleTagForPreStep (cliV : Version) (acc : Version × Bool) (tag : String) :
    Version × Bool :=
  match parseTolerant tag with
  | none => acc
  | some v =>
    if vequals v cliV then (cliV, acc.2)
    else if vlt v cliV then acc
    else if vgt v cliV then (acc.1, true)
    else acc

/-- Embedding of `getCompatibleTagForPre` from docker/dockerhub.go. -/
def getCompatibleTagForPre (tags : List String) (cliV : Version) : Version × Bool :=
  tags.foldl (getCompatibleTagForPreStep cliV) (zeroVersion, false)

deriving instance DecidableEq for Except

/-- Outcome of one HTTP request in `getTags`: either a transport error from
the client, or a response with a status code and the result of decoding the
JSON body into the expected shape. -/
inductive HttpResult (α : Type) where
  | netError (msg : String)
  | response (status : Nat) (body : Except String α)
deriving DecidableEq

/-- Embedding of `getTags`: token request against the auth endpoint, then the
tag-list request; a transport error, a non-200 status, or a body that fails to
decode aborts with an error.  The two HTTP outcomes are passed in explicitly
(the network itself is outside the embedding). -/
def getTags (tokenResp : HttpResult String) (tagsResp : HttpResult (List String)) :
    Except String (List String) :=
  match tokenResp with
  | .netError m => .error ("cannot authorize in docker registry: " ++ m)
  | .response st body =>
    if st ≠ 200 then
      .error ("incorrect status code: " ++ toString st ++ " while requesting docker registry token")
    else
      match body with
      | .error m => .error ("cannot parse authorization response from docker registry: " ++ m)
      | .ok _token =>
        match tagsResp with
        | .netError m => .error ("cannot request list of tags in docker registry: " ++ m)
        | .response st2 body2 =>
          if st2 ≠ 200 then
            .error ("incorrect status code: " ++ toString st2
              ++ " while requesting the list of tags in docker registry")
          else
            match body2 with
            | .error m => .error ("cannot parse tags response from docker registry: " ++ m)
            | .ok tags => .ok tags

/-- Embedding of the exported `GetCompatibleTag`: the Go function returns
`(tag, hasNewBreakingTag, err)`; here the error case carries the message and
the success case the `(tag, flag)` pair.  The two `HttpResult` arguments stand
for the registry round trips performed inside `getTags`. -/
def GetCompatibleTag (tokenResp : HttpResult String) (tagsResp : HttpResult (List String))
    (image currentVersion : String) : Except String (String × Bool) :=
  if currentVersion = "" ∨ currentVersion = "dev" then .ok ("latest", false)
  else
    match parseTolerant currentVersion with
    | none => .error "invalid semantic version"
    | some cliV =>
      match getTags tokenResp tagsResp with
      | .error e => .error e
      | .ok tags =>
        let res :=
          if !cliV.pre.isEmpty then getCompatibleTagForPre tags cliV
          else getCompatibleTag tags cliV
        if vequals res.1 zeroVersion then
          .error ("cannot find compatible image in docker registry for " ++ image)
        else .ok ("v" ++ versionToString res.1, res.2)

/-- A successful HTTP outcome with a decoded body, for instantiating the
registry round trips. -/
def okHttp {α : Type} (a : α) : HttpResult α := .response 200 (.ok a)

/-! ### cmd/srcd/cmd/sql.go -/

/-- The error message `ensureConnReady` produces when the global timeout
fires: `fmt.Errorf("global timeout of %v exceeded", globalTimeout)` with
`globalTimeout = 5 * time.Minute`. -/
def deadlineMsg : String := "global timeout of 5m0s exceeded"

/-- Time-sliced embedding of the polling goroutine and the select of
`ensureConnReady`: `probe k` is the outcome of the k-th `pingDB` attempt
(`none` means success), one unit of budget is consumed per failed attempt
(the 1 second sleep), and an exhausted budget means the 5 minute context
deadline fired before the attempt completed, so the select returns the
timeout error.  The succeeding branch sends `nil` on `done`, which the select
returns unchanged. -/
def ensureConnReadyLoop (probe : Nat → Option String) : Nat → Nat → Except String Unit
  | _, 0 => .error deadlineMsg
  | k, b + 1 =>
    match probe k with
    | none => .ok ()
    | some _ => ensureConnReadyLoop probe (k + 1) b

/-- Embedding of `ensureConnReady`, starting the probe loop at attempt 0 with
the number of attempts that fit before the global deadline. -/
def ensureConnReady (probe : Nat → Option String) (budget : Nat) : Except String Unit :=
  ensureConnReadyLoop probe 0 budget

/-- The environment of one `attachStdio` call: whether local stdin is a
terminal, the results of `SetRawTerminal` and of the deferred
`RestoreTerminal`, which copy loop finishes first, and the `io.Copy` results
of the output-to-local and input-to-remote loops (`none` is a nil error). -/
structure AttachEnv where
  isTerminal : Bool
  setRawErr : Option String
  restoreErr : Option String
  outputFirst : Bool
  outputErr : Option String
  inputErr : Option String
deriving DecidableEq

/-- Observables of one `attachStdio` call: the error value returned to the
caller, whether the call received from `outputDone` before returning (that
is, whether it waited for the output loop to finish), and whether the input
goroutine had already executed `resp.CloseWrite()` when the call returned
(in the code this call textually precedes the send on `inputDone`, so it has
always happened once `inputDone` is received). -/
structure AttachOutcome where
  result : Option String
  waitedForOutput : Bool
  inputHalfClosed : Bool
deriving DecidableEq

/-- The select at the end of `attachStdio`: the `outputDone` branch returns
the output error; the `inputDone` branch waits for `outputDone` and returns
its value when the input copy ended without error, and otherwise returns the
input error immediately. -/
def attachSelect (e : AttachEnv) : AttachOutcome :=
  if e.outputFirst then ⟨e.outputErr, true, false⟩
  else if e.inputErr = none then ⟨e.outputErr, true, true⟩
  else ⟨e.inputErr, false, true⟩

/-- Embedding of `attachStdio`: an error from `SetRawTerminal` on a terminal
is returned before the copy loops start; on a terminal the deferred
`RestoreTerminal` result overwrites the named return value `err` on every
path through the select. -/
def attachStdio (e : AttachEnv) : AttachOutcome :=
  if e.isTerminal then
    match e.setRawErr with
    | some er => ⟨some er, false, false⟩
    | none => ⟨e.restoreErr, (attachSelect e).waitedForOutput, (attachSelect e).inputHalfClosed⟩
  else attachSelect e

/-- Embedding of the tail of `sqlCmd.Execute` after `runMysqlCli` succeeds:
with a non-empty query, stream the response to stdout (returning a copy error
as is), then read the exit-code future and report a non-zero status; with an
empty query, delegate to `attachStdio`. -/
def executeRunPhase (query : String) (copyErr : Option String) (exitCode : Int)
    (attachRes : Option String) : Option String :=
  if query ≠ "" then
    match copyErr with
    | some e => some e
    | none =>
      if exitCode ≠ 0 then some ("MySQL exited with status " ++ toString exitCode) else none
  else attachRes

/-- Operations on shared state attempted by the helper goroutine of `pingDB`,
in program order. -/
inductive PingOp where
  | sendDone : Option String → PingOp
  | recvCall : PingOp
deriving DecidableEq

/-- Literal embedding of the helper goroutine body of `pingDB`.  Neither
error branch contains a return statement: after `done <- err` for a failed
`client.SQL` call, execution proceeds to `stream.Recv()` on the nil stream (a
runtime fault, so the trace stops there); after a failed `Recv`, execution
proceeds to the unconditional `done <- nil`, a second send on `done`. -/
def pingGoroutine (sqlErr recvErr : Option String) : List PingOp :=
  match sqlErr with
  | some e => [.sendDone (some e), .recvCall]
  | none =>
    match recvErr with
    | some e => [.recvCall, .sendDone (some e), .sendDone none]
    | none => [.recvCall, .sendDone none]

/-- Whether an operation is a send on `done`. -/
def isSendDone : PingOp → Bool
  | .sendDone _ => true
  | .recvCall => false

/-- Major comparison as a comparator on versions. -/
def cmpMajor (v o : Version) : Ordering := goCmp v.major o.major

/-- Minor comparison as a comparator on versions. -/
def cmpMinor (v o : Version) : Ordering := goCmp v.minor o.minor

/-- Patch comparison as a comparator on versions. -/
def cmpPatch (v o : Version) : Ordering := goCmp v.patch o.patch

/-- Pre-release comparison as a comparator on versions. -/
def cmpPre (v o : Version) : Ordering := preListComp v.pre o.pre

/-- Versions the stable-client loop keeps for selection, following the claim:
parsed, not a pre-release, not strictly below the current version, not at or
above the breaking boundary. -/
def stableKeep (cliV : Version) (v : Version) : Bool :=
  v.pre.isEmpty && !(vlt v cliV) && !(vgte v (breakingBoundary cliV))

/-- Versions that set the breaking flag for a stable client, following the
claim: parsed, not a pre-release, not strictly below the current version, at
or above the breaking boundary. -/
def stableBreak (cliV : Version) (v : Version) : Bool :=
  v.pre.isEmpty && !(vlt v cliV) && vgte v (breakingBoundary cliV)

/-- The parsed tags remaining for selection by a stable client. -/
def stableRemaining (cliV : Version) (tags : List String) : List Version :=
  (tags.filterMap parseTolerant).filter (stableKeep cliV)

/-- One update of the running maximum in the selection loop. -/
def selStep (a v : Version) : Version := if vgt v a then v else a

/-- The running maximum the selection loop computes over a list of versions. -/
def foldSelect (a : Version) (vs : List Version) : Version := vs.foldl selStep a

/-- The failure conditions of one registry round trip named by claim C6: a
transport error, a non-200 status, or a body that fails to decode. -/
def httpFailed {α : Type} : HttpResult α → Prop
  | .netError _ => True
  | .response st body => st ≠ 200 ∨ ∃ m, body = Except.error m

/-- Environment used for claim C4: stdin is not a terminal, the input loop
finishes first and its copy ends with an error. -/
def c4Env : AttachEnv := ⟨false, none, none, false, none, some "use of closed connection"⟩

/-- Second environment used for claim C4: stdin is a terminal, raw-mode setup
and restore succeed, and the output loop finishes first with an error. -/
def c4tEnv : AttachEnv := ⟨true, none, none, true, some "unexpected EOF", none⟩

/-- Environment used for claim C9: a terminal whose raw-mode setup and
restore both succeed while the output copy loop ends with an error. -/
def c9Env : AttachEnv := ⟨true, none, none, true, some "read error", none⟩

/-! ### Order-theoretic facts about the comparators -/

theorem goCmp_eq_iff {α : Type} [LinearOrder α] {a b : α} : goCmp a b = .eq ↔ a = b := by
  unfold goCmp
  split_ifs with h1 h2
  · exact iff_of_true rfl h1
  · exact iff_of_false (by simp) h1
  · exact iff_of_false (by simp) h1

theorem goCmp_gt_iff {α : Type} [LinearOrder α] {a b : α} : goCmp a b = .gt ↔ b < a := by
  unfold goCmp
  split_ifs with h1 h2
  · exact iff_of_false (by simp) (by rw [h1]; exact lt_irrefl b)
  · exact iff_of_true rfl h2
  · exact iff_of_false (by simp) h2

theorem goCmp_lt_iff {α : Type} [LinearOrder α] {a b : α} : goCmp a b = .lt ↔ a < b := by
  unfold goCmp
  split_ifs with h1 h2
  · exact iff_of_false (by simp) (by rw [h1]; exact lt_irrefl b)
  · exact iff_of_false (by simp) (fun h => absurd h2 (lt_asymm h))
  · exact iff_of_true rfl (lt_of_le_of_ne (not_lt.mp h2) h1)

theorem goCmp_symm {α : Type} [LinearOrder α] (a b : α) : (goCmp a b).swap = goCmp b a := by
  rcases h : goCmp a b with _ | _ | _
  · rw [show goCmp b a = .gt from goCmp_gt_iff.mpr (goCmp_lt_iff.mp h)]; rfl
  · rw [show goCmp b a = .eq from goCmp_eq_iff.mpr (goCmp_eq_iff.mp h).symm]; rfl
  · rw [show goCmp b a = .lt from goCmp_lt_iff.mpr (goCmp_gt_iff.mp h)]; rfl

theorem goCmp_le_trans {α : Type} [LinearOrder α] {a b c : α} :
    goCmp a b ≠ .gt → goCmp b c ≠ .gt → goCmp a c ≠ .gt := by
  intro h1 h2
  rw [Ne, goCmp_gt_iff] at h1 h2 ⊢
  intro h3
  exact h2 (lt_of_lt_of_le h3 (not_lt.mp h1))

instance {α : Type} [inst : LinearOrder α] : Batteries.TransCmp (@goCmp α inst) where
  symm := goCmp_symm
  le_trans := goCmp_le_trans

theorem lexListCmp_symm {α : Type} (cmp : α → α → Ordering) [Batteries.OrientedCmp cmp]
    (x y : List α) : (lexListCmp cmp x y).swap = lexListCmp cmp y x := by
  induction x generalizing y with
  | nil => cases y <;> rfl
  | cons a as ih =>
    cases y with
    | nil => rfl
    | cons b bs =>
      show (match cmp a b with
        | .eq => lexListCmp cmp as bs
        | .lt => .lt
        | .gt => .gt).swap
        = (match cmp b a with
        | .eq => lexListCmp cmp bs as
        | .lt => .lt
        | .gt => .gt)
      have hs : (cmp a b).swap = cmp b a := Batteries.OrientedCmp.symm a b
      rw [← hs]
      cases h : cmp a b <;> first | rfl | exact ih bs

theorem lexListCmp_le_trans {α : Type} (cmp : α → α → Ordering) [Batteries.TransCmp cmp]
    (x y z : List α) : lexListCmp cmp x y ≠ .gt → lexListCmp cmp y z ≠ .gt →
    lexListCmp cmp x z ≠ .gt := by
  induction x generalizing y z with
  | nil =>
    intro h1 h2
    cases z <;> simp [lexListCmp]
  | cons a as ih =>
    intro h1 h2
    cases y with
    | nil => exact absurd rfl h1
    | cons b bs =>
      cases z with
      | nil => exact absurd rfl h2
      | cons c cs =>
        simp only [lexListCmp] at h1 h2 ⊢
        cases hab : cmp a b with
        | gt => rw [hab] at h1; exact absurd rfl h1
        | lt =>
          cases hbc : cmp b c with
          | gt => rw [hbc] at h2; exact absurd rfl h2
          | lt => rw [Batteries.TransCmp.lt_trans hab hbc]; simp
          | eq => rw [Batteries.TransCmp.cmp_congr_right hbc] at hab; rw [hab]; simp
        | eq =>
          cases hbc : cmp b c with
          | gt => rw [hbc] at h2; exact absurd rfl h2
          | lt => rw [Batteries.TransCmp.cmp_congr_left hab, hbc]; simp
          | eq =>
            rw [hab] at h1
            rw [hbc] at h2
            rw [show cmp a c = .eq from (Batteries.TransCmp.cmp_congr_left hab).trans hbc]
            exact ih bs cs h1 h2

instance {α : Type} (cmp : α → α → Ordering) [Batteries.TransCmp cmp] :
    Batteries.TransCmp (lexListCmp cmp) where
  symm := lexListCmp_symm cmp
  le_trans := fun h1 h2 => lexListCmp_le_trans cmp _ _ _ h1 h2

instance : Batteries.TransCmp charCmp where
  symm := fun _ _ => goCmp_symm _ _
  le_trans := fun h1 h2 => goCmp_le_trans h1 h2

theorem strCmp_symm (a b : String) : (strCmp a b).swap = strCmp b a :=
  lexListCmp_symm charCmp a.data b.data

theorem strCmp_le_trans {a b c : String} :
    strCmp a b ≠ .gt → strCmp b c ≠ .gt → strCmp a c ≠ .gt :=
  fun h1 h2 => lexListCmp_le_trans charCmp a.data b.data c.data h1 h2

instance : Batteries.TransCmp strCmp where
  symm := strCmp_symm
  le_trans := fun h1 h2 => strCmp_le_trans h1 h2

theorem prCompare_symm (a b : PRVersion) : (prCompare a b).swap = prCompare b a := by
  unfold prCompare
  cases ha : a.isNum <;> cases hb : b.isNum <;>
    first
      | rfl
      | exact goCmp_symm a.num b.num
      | exact strCmp_symm a.str b.str

theorem prCompare_le_trans {a b c : PRVersion} :
    prCompare a b ≠ .gt → prCompare b c ≠ .gt → prCompare a c ≠ .gt := by
  intro h1 h2
  unfold prCompare at h1 h2 ⊢
  cases ha : a.isNum <;> cases hb : b.isNum <;> cases hc : c.isNum <;>
    simp only [ha, hb] at h1 <;> simp only [hb, hc] at h2 <;>
    first
      | exact absurd rfl h1
      | exact absurd rfl h2
      | exact strCmp_le_trans h1 h2
      | exact goCmp_le_trans h1 h2
      | simp

instance : Batteries.TransCmp prCompare where
  symm := prCompare_symm
  le_trans := fun h1 h2 => prCompare_le_trans h1 h2

instance : Batteries.TransCmp listPrCompare :=
  inferInstanceAs (Batteries.TransCmp (lexListCmp prCompare))

theorem preListComp_symm (x y : List PRVersion) : (preListComp x y).swap = preListComp y x := by
  cases x <;> cases y <;>
    first | rfl | exact lexListCmp_symm prCompare _ _

theorem preListComp_le_trans {x y z : List PRVersion} :
    preListComp x y ≠ .gt → preListComp y z ≠ .gt → preListComp x z ≠ .gt := by
  intro h1 h2
  cases x <;> cases y <;> cases z <;>
    simp only [preListComp] at h1 h2 ⊢ <;>
    first
      | exact absurd rfl h1
      | exact absurd rfl h2
      | exact lexListCmp_le_trans prCompare _ _ _ h1 h2
      | simp

instance : Batteries.TransCmp preListComp where
  symm := preListComp_symm
  le_trans := fun h1 h2 => preListComp_le_trans h1 h2

instance : Batteries.TransCmp cmpMajor where
  symm := fun _ _ => goCmp_symm _ _
  le_trans := fun h1 h2 => goCmp_le_trans h1 h2

instance : Batteries.TransCmp cmpMinor where
  symm := fun _ _ => goCmp_symm _ _
  le_trans := fun h1 h2 => goCmp_le_trans h1 h2

instance : Batteries.TransCmp cmpPatch where
  symm := fun _ _ => goCmp_symm _ _
  le_trans := fun h1 h2 => goCmp_le_trans h1 h2

instance : Batteries.TransCmp cmpPre where
  symm := fun _ _ => preListComp_symm _ _
  le_trans := fun h1 h2 => preListComp_le_trans h1 h2

theorem vcomp_eq_lex :
    vcomp = compareLex cmpMajor (compareLex cmpMinor (compareLex cmpPatch cmpPre)) := by
  funext v o
  show (match goCmp v.major o.major with
    | .eq =>
      match goCmp v.minor o.minor with
      | .eq =>
        match goCmp v.patch o.patch with
        | .eq => preListComp v.pre o.pre
        | c => c
      | c => c
    | c => c) = _
  unfold compareLex cmpMajor cmpMinor cmpPatch cmpPre
  cases goCmp v.major o.major <;> cases goCmp v.minor o.minor <;>
    cases goCmp v.patch o.patch <;> rfl

instance : Batteries.TransCmp vcomp := by
  rw [vcomp_eq_lex]
  infer_instance

/-! ### Characterizing the tag-selection loops -/

theorem getCompatibleTag_fold (cliV : Version) (tags : List String) (acc : Version × Bool) :
    tags.foldl (getCompatibleTagStep cliV (breakingBoundary cliV)) acc
      = (foldSelect acc.1 ((tags.filterMap parseTolerant).filter (stableKeep cliV)),
         acc.2 || (tags.filterMap parseTolerant).any (stableBreak cliV)) := by
  induction tags generalizing acc with
  | nil => simp [foldSelect]
  | cons t ts ih =>
    simp only [List.foldl_cons, List.filterMap_cons]
    cases hp : parseTolerant t with
    | none =>
      simp only [getCompatibleTagStep, hp]
      exact ih acc
    | some v =>
      simp only [getCompatibleTagStep, hp]
      cases hpre : v.pre.isEmpty with
      | false =>
        simp [stableKeep, stableBreak, hpre, ih]
      | true =>
        cases hlt : vlt v cliV with
        | true =>
          simp [stableKeep, stableBreak, hpre, hlt, ih]
        | false =>
          cases hgte : vgte v (breakingBoundary cliV) with
          | true =>
            simp [stableKeep, stableBreak, hpre, hlt, hgte, ih]
          | false =>
            cases hg : vgt v acc.1 <;>
              simp [stableKeep, stableBreak, hpre, hlt, hgte, hg, ih, foldSelect, selStep]

theorem getCompatibleTagForPre_fold (cliV : Version) (tags : List String) (acc : Version × Bool) :
    tags.foldl (getCompatibleTagForPreStep cliV) acc
      = ((if (tags.filterMap parseTolerant).any (fun v => vequals v cliV) then cliV else acc.1),
         acc.2 || (tags.filterMap parseTolerant).any (fun v => vgt v cliV)) := by
  induction tags generalizing acc with
  | nil => simp
  | cons t ts ih =>
    cases hp : parseTolerant t with
    | none => simp [getCompatibleTagForPreStep, hp, ih]
    | some v =>
      rcases hvc : vcomp v cliV with _ | _ | _ <;>
        simp [getCompatibleTagForPreStep, hp, vequals, vlt, vgt, hvc, ih]

theorem foldSelect_mem (a : Version) (vs : List Version) :
    foldSelect a vs = a ∨ foldSelect a vs ∈ vs := by
  induction vs generalizing a with
  | nil => exact Or.inl rfl
  | cons v ts ih =>
    show foldSelect (selStep a v) ts = a ∨ foldSelect (selStep a v) ts ∈ v :: ts
    rcases ih (selStep a v) with h | h
    · rw [h]
      unfold selStep
      split
      · exact Or.inr (List.mem_cons_self v ts)
      · exact Or.inl rfl
    · exact Or.inr (List.mem_cons_of_mem v h)

theorem vcomp_refl (v : Version) : vcomp v v = .eq := Batteries.OrientedCmp.cmp_refl

theorem foldSelect_le (a : Version) (vs : List Version) :
    vcomp a (foldSelect a vs) ≠ .gt ∧ ∀ x ∈ vs, vcomp x (foldSelect a vs) ≠ .gt := by
  induction vs generalizing a with
  | nil =>
    refine ⟨?_, ?_⟩
    · show vcomp a a ≠ .gt
      rw [vcomp_refl]
      exact Ordering.noConfusion
    · intro x hx
      cases hx
  | cons v ts ih =>
    have hstep_a : vcomp a (selStep a v) ≠ .gt := by
      unfold selStep
      split
      · rename_i hv
        have hg : vcomp v a = .gt := by simpa [vgt] using hv
        rw [Batteries.OrientedCmp.cmp_eq_gt.mp hg]
        exact Ordering.noConfusion
      · rw [vcomp_refl]
        exact Ordering.noConfusion
    have hstep_v : vcomp v (selStep a v) ≠ .gt := by
      unfold selStep
      split
      · rw [vcomp_refl]
        exact Ordering.noConfusion
      · rename_i hv
        simpa [vgt] using hv
    refine ⟨?_, ?_⟩
    · exact Batteries.TransCmp.le_trans hstep_a (ih (selStep a v)).1
    · intro x hx
      rcases List.mem_cons.mp hx with hxe | hx2
      · rw [hxe]
        exact Batteries.TransCmp.le_trans hstep_v (ih (selStep a v)).1
      · exact (ih (selStep a v)).2 x hx2

theorem vcomp_zero_not_lt {v : Version} (h : v.pre = []) : vcomp v zeroVersion ≠ .lt := by
  intro hcon
  unfold vcomp at hcon
  rcases hM : goCmp v.major zeroVersion.major with _ | _ | _ <;> rw [hM] at hcon
  · exact absurd (goCmp_lt_iff.mp hM) (Nat.not_lt_zero _)
  · rcases hm : goCmp v.minor zeroVersion.minor with _ | _ | _ <;> rw [hm] at hcon
    · exact absurd (goCmp_lt_iff.mp hm) (Nat.not_lt_zero _)
    · rcases hq : goCmp v.patch zeroVersion.patch with _ | _ | _ <;> rw [hq] at hcon
      · exact absurd (goCmp_lt_iff.mp hq) (Nat.not_lt_zero _)
      · rw [h] at hcon
        exact Ordering.noConfusion hcon
      · exact Ordering.noConfusion hcon
    · exact Ordering.noConfusion hcon
  · exact Ordering.noConfusion hcon

theorem vcomp_zero_ne_eq_of_pre {v : Version} (h : v.pre ≠ []) : vcomp v zeroVersion ≠ .eq := by
  intro hcon
  unfold vcomp at hcon
  rcases hM : goCmp v.major zeroVersion.major with _ | _ | _ <;> rw [hM] at hcon
  · exact Ordering.noConfusion hcon
  · rcases hm : goCmp v.minor zeroVersion.minor with _ | _ | _ <;> rw [hm] at hcon
    · exact Ordering.noConfusion hcon
    · rcases hq : goCmp v.patch zeroVersion.patch with _ | _ | _ <;> rw [hq] at hcon
      · exact Ordering.noConfusion hcon
      · rcases hv : v.pre with _ | ⟨p, ps⟩
        · exact h hv
        · rw [hv] at hcon
          exact Ordering.noConfusion hcon
      · exact Ordering.noConfusion hcon
    · exact Ordering.noConfusion hcon
  · exact Ordering.noConfusion hcon

theorem mem_stableRemaining_pre_empty {cliV v : Version} {tags : List String}
    (h : v ∈ stableRemaining cliV tags) : v.pre = [] := by
  have hk := (List.mem_filter.mp h).2
  unfold stableKeep at hk
  simp only [Bool.and_eq_true] at hk
  exact List.isEmpty_iff.mp hk.1.1

theorem parseTolerant_empty : parseTolerant "" = none := rfl

theorem parseTolerant_dev : parseTolerant "dev" = none := rfl

theorem GetCompatibleTag_stable_eq (tk img cur : String) (tags : List String) (cliV : Version)
    (hp : parseTolerant cur = some cliV) (hs : cliV.pre = []) :
    GetCompatibleTag (okHttp tk) (okHttp tags) img cur
      = (if vequals (foldSelect zeroVersion (stableRemaining cliV tags)) zeroVersion then
           .error ("cannot find compatible image in docker registry for " ++ img)
         else
           .ok ("v" ++ versionToString (foldSelect zeroVersion (stableRemaining cliV tags)),
             (tags.filterMap parseTolerant).any (stableBreak cliV))) := by
  have h1 : cur ≠ "" := by
    intro e
    rw [e, parseTolerant_empty] at hp
    exact Option.noConfusion hp
  have h2 : cur ≠ "dev" := by
    intro e
    rw [e, parseTolerant_dev] at hp
    exact Option.noConfusion hp
  have hie : cliV.pre.isEmpty = true := by rw [hs]; rfl
  simp only [GetCompatibleTag, h1, h2, hp, getTags, okHttp, hie, getCompatibleTag,
    getCompatibleTag_fold, stableRemaining, Bool.false_or, Bool.not_true, or_self,
    if_false, ite_false, ne_eq, not_true_eq_false, ite_true, Bool.false_eq_true,
    not_false_eq_true, reduceIte]

theorem GetCompatibleTag_pre_eq (tk img cur : String) (tags : List String) (cliV : Version)
    (hp : parseTolerant cur = some cliV) (hs : cliV.pre ≠ []) :
    GetCompatibleTag (okHttp tk) (okHttp tags) img cur
      = (if (tags.filterMap parseTolerant).any (fun v => vequals v cliV) then
           .ok ("v" ++ versionToString cliV,
             (tags.filterMap parseTolerant).any (fun v => vgt v cliV))
         else .error ("cannot find compatible image in docker registry for " ++ img)) := by
  have h1 : cur ≠ "" := by
    intro e
    rw [e, parseTolerant_empty] at hp
    exact Option.noConfusion hp
  have h2 : cur ≠ "dev" := by
    intro e
    rw [e, parseTolerant_dev] at hp
    exact Option.noConfusion hp
  have hie : cliV.pre.isEmpty = false := by
    rcases hcp : cliV.pre with _ | ⟨p, ps⟩
    · exact absurd hcp hs
    · rfl
  simp only [GetCompatibleTag, h1, h2, hp, getTags, okHttp, hie, getCompatibleTagForPre,
    getCompatibleTagForPre_fold, Bool.false_or, Bool.not_false, or_self, if_false,
    ite_false, ne_eq, not_true_eq_false, ite_true, Bool.false_eq_true, not_false_eq_true,
    reduceIte]
  rcases hae : (tags.filterMap parseTolerant).any (fun v => vequals v cliV) with _ | _ <;>
    simp [hae, vequals, vcomp_refl, vcomp_zero_ne_eq_of_pre hs]

theorem stableMax_error_all (cliV : Version) (tags : List String)
    (hz : vequals (foldSelect zeroVersion (stableRemaining cliV tags)) zeroVersion = true) :
    ∀ v ∈ stableRemaining cliV tags, vcomp v zeroVersion ≠ .gt := by
  intro v hv
  have hmz : vcomp (foldSelect zeroVersion (stableRemaining cliV tags)) zeroVersion = .eq := by
    simpa [vequals] using hz
  have hle := (foldSelect_le zeroVersion (stableRemaining cliV tags)).2 v hv
  have hmz2 : vcomp (foldSelect zeroVersion (stableRemaining cliV tags)) zeroVersion ≠ .gt := by
    rw [hmz]
    exact Ordering.noConfusion
  exact Batteries.TransCmp.le_trans hle hmz2

theorem stableMax_ok_mem (cliV : Version) (tags : List String)
    (hz : vequals (foldSelect zeroVersion (stableRemaining cliV tags)) zeroVersion = false) :
    foldSelect zeroVersion (stableRemaining cliV tags) ∈ stableRemaining cliV tags
      ∧ vcomp (foldSelect zeroVersion (stableRemaining cliV tags)) zeroVersion = .gt := by
  have hne : vcomp (foldSelect zeroVersion (stableRemaining cliV tags)) zeroVersion ≠ .eq := by
    simpa [vequals] using hz
  have hm : foldSelect zeroVersion (stableRemaining cliV tags) ∈ stableRemaining cliV tags := by
    rcases foldSelect_mem zeroVersion (stableRemaining cliV tags) with he | hm
    · rw [he] at hne
      exact absurd (vcomp_refl zeroVersion) hne
    · exact hm
  refine ⟨hm, ?_⟩
  have hpre := mem_stableRemaining_pre_empty hm
  have hnl := vcomp_zero_not_lt hpre
  rcases hmc : vcomp (foldSelect zeroVersion (stableRemaining cliV tags)) zeroVersion with _ | _ | _
  · exact absurd hmc hnl
  · exact absurd hmc hne
  · rfl

/-- C1 (amended): for a stable (non-pre-release) current version, the exported
GetCompatibleTag follows the stable-client algorithm: unparseable and
pre-release tags are skipped, tags strictly below the current version are
skipped, tags at or above the breaking boundary (next major with minor and
patch zeroed when major is at least 1, else next minor with patch zeroed) set
the breaking flag and are never selected; when the call succeeds it returns a
maximum of the remaining tags prefixed with "v" together with that flag.
Amendment forced by the counterexample: when every remaining tag compares
equal to the zero version 0.0.0 (in particular when none remains), the call
returns the not-found error instead of a selection, because the zero version
doubles as the not-found sentinel. -/
theorem C1_stable_selection (tk img cur : String) (tags : List String) (cliV : Version)
    (hp : parseTolerant cur = some cliV) (hs : cliV.pre = []) :
    match GetCompatibleTag (okHttp tk) (okHttp tags) img cur with
    | .ok st =>
        st.2 = (tags.filterMap parseTolerant).any (stableBreak cliV)
          ∧ ∃ v ∈ stableRemaining cliV tags,
              st.1 = "v" ++ versionToString v
                ∧ ∀ w ∈ stableRemaining cliV tags, vcomp w v ≠ .gt
    | .error e =>
        e = "cannot find compatible image in docker registry for " ++ img
          ∧ ∀ w ∈ stableRemaining cliV tags, vcomp w zeroVersion ≠ .gt := by
  rw [GetCompatibleTag_stable_eq tk img cur tags cliV hp hs]
  rcases hz : vequals (foldSelect zeroVersion (stableRemaining cliV tags)) zeroVersion with _ | _
  · simp only [hz, Bool.false_eq_true, reduceIte]
    refine ⟨trivial, foldSelect zeroVersion (stableRemaining cliV tags), ?_, rfl, ?_⟩
    · exact (stableMax_ok_mem cliV tags hz).1
    · exact (foldSelect_le zeroVersion (stableRemaining cliV tags)).2
  · simp only [hz, reduceIte]
    exact ⟨trivial, stableMax_error_all cliV tags hz⟩

/-- Witness for C1 at the specification example: current version 1.2.0 with
tags 1.2.1, 1.3.0, 2.0.0 selects v1.3.0 with the breaking flag set. -/
theorem C1_stable_selection_witness :
    parseTolerant "1.2.0" = some ⟨1, 2, 0, [], []⟩
    ∧ (match GetCompatibleTag (okHttp "t") (okHttp ["1.2.1", "1.3.0", "2.0.0"]) "img" "1.2.0" with
       | .ok st =>
           st.2 = (["1.2.1", "1.3.0", "2.0.0"].filterMap parseTolerant).any
               (stableBreak ⟨1, 2, 0, [], []⟩)
             ∧ ∃ v ∈ stableRemaining ⟨1, 2, 0, [], []⟩ ["1.2.1", "1.3.0", "2.0.0"],
                 st.1 = "v" ++ versionToString v
                   ∧ ∀ w ∈ stableRemaining ⟨1, 2, 0, [], []⟩ ["1.2.1", "1.3.0", "2.0.0"],
                       vcomp w v ≠ .gt
       | .error e =>
           e = "cannot find compatible image in docker registry for " ++ "img"
             ∧ ∀ w ∈ stableRemaining ⟨1, 2, 0, [], []⟩ ["1.2.1", "1.3.0", "2.0.0"],
                 vcomp w zeroVersion ≠ .gt) :=
  ⟨by decide,
   C1_stable_selection "t" "img" "1.2.0" ["1.2.1", "1.3.0", "2.0.0"] ⟨1, 2, 0, [], []⟩
     (by decide) rfl⟩

/-- Counterexample to C1 as stated: with current version 0.0.0 and tag list
containing exactly 0.0.0, the remaining set is the single version 0.0.0 and
its strict maximum is 0.0.0, so by the claim the call should return "v0.0.0";
instead it returns the not-found error, because the code cannot distinguish a
selected 0.0.0 from the zero-version not-found sentinel. -/
theorem C1_stable_selection_counterexample :
    parseTolerant "0.0.0" = some zeroVersion
    ∧ zeroVersion.pre = []
    ∧ stableRemaining zeroVersion ["0.0.0"] = [zeroVersion]
    ∧ GetCompatibleTag (okHttp "t") (okHttp ["0.0.0"]) "img" "0.0.0"
        = .error "cannot find compatible image in docker registry for img"
    ∧ GetCompatibleTag (okHttp "t") (okHttp ["0.0.0"]) "img" "0.0.0"
        ≠ .ok ("v0.0.0", false) := by
  refine ⟨by decide, by decide, by decide, by decide, by decide⟩

/-- C5 (amended): for a stable current version, GetCompatibleTag returns the
"cannot find compatible image" error exactly when no tag qualifies as a
non-breaking version at or above the current version with a version strictly
greater than the zero version 0.0.0, and whenever such a tag exists the call
succeeds.  Amendment forced by the counterexample: a qualifying tag whose
version is exactly 0.0.0 cannot be distinguished from the not-found sentinel
and still produces the error. -/
theorem C5_not_found (tk img cur : String) (tags : List String) (cliV : Version)
    (hp : parseTolerant cur = some cliV) (hs : cliV.pre = []) :
    (GetCompatibleTag (okHttp tk) (okHttp tags) img cur
        = .error ("cannot find compatible image in docker registry for " ++ img)
      ↔ ∀ v ∈ stableRemaining cliV tags, vcomp v zeroVersion ≠ .gt)
    ∧ ((∃ v ∈ stableRemaining cliV tags, vcomp v zeroVersion = .gt)
        → ∃ st, GetCompatibleTag (okHttp tk) (okHttp tags) img cur = .ok st) := by
  rw [GetCompatibleTag_stable_eq tk img cur tags cliV hp hs]
  rcases hz : vequals (foldSelect zeroVersion (stableRemaining cliV tags)) zeroVersion with _ | _
  · simp only [hz, Bool.false_eq_true, reduceIte]
    constructor
    · apply iff_of_false
      · intro hcon
        exact Except.noConfusion hcon
      · intro hall
        exact absurd (stableMax_ok_mem cliV tags hz).2
          (hall _ (stableMax_ok_mem cliV tags hz).1)
    · intro _
      exact ⟨_, rfl⟩
  · simp only [hz, reduceIte]
    constructor
    · exact iff_of_true trivial (stableMax_error_all cliV tags hz)
    · rintro ⟨v, hv, hgt⟩
      exact absurd hgt (stableMax_error_all cliV tags hz v hv)

/-- Witness for C5: with current version 1.2.0 and the one qualifying tag
1.2.1 the call succeeds, and the error characterization holds. -/
theorem C5_not_found_witness :
    parseTolerant "1.2.0" = some ⟨1, 2, 0, [], []⟩
    ∧ ((GetCompatibleTag (okHttp "t") (okHttp ["1.2.1"]) "img" "1.2.0"
          = .error ("cannot find compatible image in docker registry for " ++ "img")
        ↔ ∀ v ∈ stableRemaining ⟨1, 2, 0, [], []⟩ ["1.2.1"], vcomp v zeroVersion ≠ .gt)
      ∧ ((∃ v ∈ stableRemaining ⟨1, 2, 0, [], []⟩ ["1.2.1"], vcomp v zeroVersion = .gt)
          → ∃ st, GetCompatibleTag (okHttp "t") (okHttp ["1.2.1"]) "img" "1.2.0" = .ok st)) :=
  ⟨by decide, C5_not_found "t" "img" "1.2.0" ["1.2.1"] ⟨1, 2, 0, [], []⟩ (by decide) rfl⟩

/-- Counterexample to C5 as stated: with current version 0.0.0 the tag v0.0.0
parses to 0.0.0, which is non-breaking and at (not below) the current version,
so by the claim the call should succeed; instead it returns the not-found
error. -/
theorem C5_not_found_counterexample :
    parseTolerant "v0.0.0" = some zeroVersion
    ∧ stableRemaining zeroVersion ["v0.0.0"] = [zeroVersion]
    ∧ GetCompatibleTag (okHttp "t") (okHttp ["v0.0.0"]) "img" "0.0.0"
        = .error "cannot find compatible image in docker registry for img" := by
  refine ⟨by decide, by decide, by decide⟩

/-- C2 (confirmed): for a current version carrying a pre-release component,
GetCompatibleTag selects a version exactly when some tag parses to a version
semver-equal to the current version (semver equality is the equality the
library uses for selection; it ignores build metadata), in which case the
current version itself is returned prefixed with "v"; the breaking flag is set
exactly when some tag parses to a version strictly greater than the current
version, and such a tag is never selected (the selected version is always the
current one). -/
theorem C2_pre_exact (tk img cur : String) (tags : List String) (cliV : Version)
    (hp : parseTolerant cur = some cliV) (hs : cliV.pre ≠ []) :
    ((∃ st, GetCompatibleTag (okHttp tk) (okHttp tags) img cur = .ok st)
      ↔ ∃ v ∈ tags.filterMap parseTolerant, vcomp v cliV = .eq)
    ∧ ∀ st, GetCompatibleTag (okHttp tk) (okHttp tags) img cur = .ok st →
        st = ("v" ++ versionToString cliV,
          (tags.filterMap parseTolerant).any (fun v => vgt v cliV)) := by
  rw [GetCompatibleTag_pre_eq tk img cur tags cliV hp hs]
  rcases hae : (tags.filterMap parseTolerant).any (fun v => vequals v cliV) with _ | _
  · simp only [hae, Bool.false_eq_true, reduceIte]
    constructor
    · apply iff_of_false
      · rintro ⟨st, hst⟩
        exact Except.noConfusion hst
      · rintro ⟨v, hv, he⟩
        have hat : (tags.filterMap parseTolerant).any (fun v => vequals v cliV) = true :=
          List.any_eq_true.mpr ⟨v, hv, by simp [vequals, he]⟩
        rw [hae] at hat
        exact Bool.noConfusion hat
    · intro st hst
      exact absurd hst (fun hcon => Except.noConfusion hcon)
  · simp only [hae, reduceIte]
    constructor
    · refine iff_of_true ⟨_, rfl⟩ ?_
      rcases List.any_eq_true.mp hae with ⟨v, hv, he⟩
      exact ⟨v, hv, by simpa [vequals] using he⟩
    · intro st hst
      exact (Except.ok.inj hst).symm

/-- Witness for C2 at the specification example: current version 1.0.0-beta.1
with tags 1.0.0-beta.1 and 1.0.0 selects v1.0.0-beta.1 with the breaking flag
set. -/
theorem C2_pre_exact_witness :
    parseTolerant "1.0.0-beta.1" = some ⟨1, 0, 0, [⟨"beta", 0, false⟩, ⟨"", 1, true⟩], []⟩
    ∧ (((∃ st, GetCompatibleTag (okHttp "t") (okHttp ["1.0.0-beta.1", "1.0.0"]) "img"
            "1.0.0-beta.1" = .ok st)
        ↔ ∃ v ∈ (["1.0.0-beta.1", "1.0.0"] : List String).filterMap parseTolerant,
            vcomp v ⟨1, 0, 0, [⟨"beta", 0, false⟩, ⟨"", 1, true⟩], []⟩ = .eq)
      ∧ ∀ st, GetCompatibleTag (okHttp "t") (okHttp ["1.0.0-beta.1", "1.0.0"]) "img"
            "1.0.0-beta.1" = .ok st →
          st = ("v" ++ versionToString ⟨1, 0, 0, [⟨"beta", 0, false⟩, ⟨"", 1, true⟩], []⟩,
            ((["1.0.0-beta.1", "1.0.0"] : List String).filterMap parseTolerant).any
              (fun v => vgt v ⟨1, 0, 0, [⟨"beta", 0, false⟩, ⟨"", 1, true⟩], []⟩))) :=
  ⟨by decide,
   C2_pre_exact "t" "img" "1.0.0-beta.1" ["1.0.0-beta.1", "1.0.0"]
     ⟨1, 0, 0, [⟨"beta", 0, false⟩, ⟨"", 1, true⟩], []⟩ (by decide) (by decide)⟩

theorem getTags_fails (tokenResp : HttpResult String) (tagsResp : HttpResult (List String))
    (h : httpFailed tokenResp ∨ httpFailed tagsResp) :
    ∃ e, getTags tokenResp tagsResp = .error e := by
  cases tokenResp with
  | netError m => exact ⟨_, rfl⟩
  | response st body =>
    by_cases hst : st = 200
    · subst hst
      cases body with
      | error m => exact ⟨_, rfl⟩
      | ok tk =>
        rcases h with h1 | h2
        · rcases h1 with h1 | ⟨m, hm⟩
          · exact absurd rfl h1
          · exact Except.noConfusion hm
        · cases tagsResp with
          | netError m => exact ⟨_, rfl⟩
          | response st2 body2 =>
            by_cases hst2 : st2 = 200
            · subst hst2
              cases body2 with
              | error m => exact ⟨_, rfl⟩
              | ok tags =>
                rcases h2 with h2 | ⟨m, hm⟩
                · exact absurd rfl h2
                · exact Except.noConfusion hm
            · exact ⟨"incorrect status code: " ++ toString st2
                ++ " while requesting the list of tags in docker registry",
                by simp [getTags, hst2]⟩
    · exact ⟨"incorrect status code: " ++ toString st
        ++ " while requesting docker registry token",
        by simp [getTags, hst]⟩

/-- C6 (confirmed): for every image and non-empty, non-dev current version, if
the registry token request or the tag-list request fails in transport, answers
with a non-200 status, or has a response body that fails to decode, then
GetCompatibleTag returns an error and no tag. -/
theorem C6_registry_errors (tokenResp : HttpResult String) (tagsResp : HttpResult (List String))
    (img cur : String) (h1 : cur ≠ "") (h2 : cur ≠ "dev")
    (h3 : httpFailed tokenResp ∨ httpFailed tagsResp) :
    ∃ e, GetCompatibleTag tokenResp tagsResp img cur = .error e := by
  unfold GetCompatibleTag
  rw [if_neg (not_or.mpr ⟨h1, h2⟩)]
  cases hp : parseTolerant cur with
  | none => exact ⟨_, rfl⟩
  | some cliV =>
    rcases getTags_fails tokenResp tagsResp h3 with ⟨e, he⟩
    rw [he]
    exact ⟨e, rfl⟩

/-- Witness for C6: a transport failure of the token request with current
version 1.0.0 yields an error. -/
theorem C6_registry_errors_witness :
    ("1.0.0" : String) ≠ "" ∧ ("1.0.0" : String) ≠ "dev"
    ∧ (httpFailed (HttpResult.netError "connection refused" : HttpResult String)
        ∨ httpFailed (okHttp ([] : List String)))
    ∧ ∃ e, GetCompatibleTag (HttpResult.netError "connection refused") (okHttp [])
        "img" "1.0.0" = .error e :=
  ⟨by decide, by decide, Or.inl trivial,
   C6_registry_errors (HttpResult.netError "connection refused") (okHttp []) "img" "1.0.0"
     (by decide) (by decide) (Or.inl trivial)⟩

/-- C8 (confirmed): with an empty current version or the sentinel dev,
GetCompatibleTag returns the tag latest with the breaking flag false and no
error; the result is the same for every registry outcome, which is how the
model expresses that the registry is never contacted on this path. -/
theorem C8_dev_latest (tokenResp : HttpResult String) (tagsResp : HttpResult (List String))
    (img : String) :
    GetCompatibleTag tokenResp tagsResp img "" = .ok ("latest", false)
    ∧ GetCompatibleTag tokenResp tagsResp img "dev" = .ok ("latest", false) := by
  constructor <;> rfl

theorem ensureConnReadyLoop_dichotomy (probe : Nat → Option String) :
    ∀ b k, ensureConnReadyLoop probe k b = .ok ()
      ∨ ensureConnReadyLoop probe k b = .error deadlineMsg
  | 0, _ => Or.inr rfl
  | b + 1, k => by
    unfold ensureConnReadyLoop
    cases hp : probe k with
    | none => exact Or.inl rfl
    | some e => exact ensureConnReadyLoop_dichotomy probe b (k + 1)

theorem ensureConnReadyLoop_ok_iff (probe : Nat → Option String) :
    ∀ b k, ensureConnReadyLoop probe k b = .ok () ↔ ∃ j, j < b ∧ probe (k + j) = none := by
  intro b
  induction b with
  | zero =>
    intro k
    simp [ensureConnReadyLoop]
  | succ b ih =>
    intro k
    unfold ensureConnReadyLoop
    cases hp : probe k with
    | none =>
      refine iff_of_true rfl ⟨0, Nat.succ_pos b, by simpa using hp⟩
    | some e =>
      rw [ih (k + 1)]
      constructor
      · rintro ⟨j, hj, hpj⟩
        refine ⟨j + 1, by omega, ?_⟩
        rw [show k + (j + 1) = k + 1 + j by omega]
        exact hpj
      · rintro ⟨j, hj, hpj⟩
        cases j with
        | zero =>
          rw [Nat.add_zero, hp] at hpj
          exact Option.noConfusion hpj
        | succ j =>
          refine ⟨j, by omega, ?_⟩
          rw [show k + 1 + j = k + (j + 1) by omega]
          exact hpj

/-- C3 (confirmed): in the time-sliced model of ensureConnReady (probe k is
the outcome of the k-th pingDB attempt, none meaning success; budget is the
number of attempts that fit before the 5 minute global deadline), the wait
returns nil exactly when some attempt within the budget succeeds, returns the
deadline-exceeded error exactly when none does, and the only error value it
can ever return is the deadline message — a probe attempt error is never the
value returned to the caller, and with a probe that always fails the wait
returns the deadline error rather than hanging. -/
theorem C3_readiness_deadline (probe : Nat → Option String) (budget : Nat) :
    (ensureConnReady probe budget = .ok () ↔ ∃ k, k < budget ∧ probe k = none)
    ∧ (ensureConnReady probe budget = .error deadlineMsg ↔ ∀ k, k < budget → probe k ≠ none)
    ∧ ∀ e, ensureConnReady probe budget = .error e → e = deadlineMsg := by
  have hok : ensureConnReady probe budget = .ok () ↔ ∃ j, j < budget ∧ probe (0 + j) = none :=
    ensureConnReadyLoop_ok_iff probe budget 0
  simp only [Nat.zero_add] at hok
  have hdi : ensureConnReady probe budget = .ok ()
      ∨ ensureConnReady probe budget = .error deadlineMsg :=
    ensureConnReadyLoop_dichotomy probe budget 0
  refine ⟨hok, ⟨?_, ?_⟩, ?_⟩
  · intro he k hk hpk
    have hO : ensureConnReady probe budget = .ok () := hok.mpr ⟨k, hk, hpk⟩
    rw [hO] at he
    exact Except.noConfusion he
  · intro hall
    rcases hdi with hO | hE
    · rcases hok.mp hO with ⟨k, hk, hpk⟩
      exact absurd hpk (hall k hk)
    · exact hE
  · intro e he
    rcases hdi with hO | hE
    · rw [hO] at he
      exact Except.noConfusion he
    · rw [hE] at he
      exact (Except.error.inj he).symm

/-- C4 (amended): the session teardown of attachStdio, for every environment.
The select stage: when the output-to-local loop finishes first it yields that
loop result, without the input loop having ended; when the input-to-remote
loop finishes first, the remote write side has been half-closed by the input
goroutine, and the select blocks for the output loop and yields its result
when the input copy ended without error, while an input copy error is yielded
immediately without waiting for the output loop (this is one amendment: the
claim stated the call waits for every way the input loop can end).  What the
call returns: the select value itself when local stdin is not a terminal; when
stdin is a terminal and raw-mode setup succeeded, the waiting and half-close
behavior is unchanged but the deferred RestoreTerminal result replaces the
returned value (the overwrite documented by claim C9 — the second amendment);
and when raw-mode setup fails on a terminal, its error is returned before the
copy loops ever start. -/
theorem C4_teardown (e : AttachEnv) :
    ((e.outputFirst = true → attachSelect e = ⟨e.outputErr, true, false⟩)
      ∧ (e.outputFirst = false →
          (attachSelect e).inputHalfClosed = true
          ∧ (e.inputErr = none →
              (attachSelect e).result = e.outputErr
                ∧ (attachSelect e).waitedForOutput = true)
          ∧ (∀ er, e.inputErr = some er →
              (attachSelect e).result = some er
                ∧ (attachSelect e).waitedForOutput = false)))
    ∧ (e.isTerminal = false → attachStdio e = attachSelect e)
    ∧ (e.isTerminal = true → e.setRawErr = none →
        (attachStdio e).result = e.restoreErr
        ∧ (attachStdio e).waitedForOutput = (attachSelect e).waitedForOutput
        ∧ (attachStdio e).inputHalfClosed = (attachSelect e).inputHalfClosed)
    ∧ (e.isTerminal = true → ∀ er, e.setRawErr = some er →
        attachStdio e = ⟨some er, false, false⟩) := by
  rcases ho : e.outputFirst with _ | _ <;>
    rcases hi : e.inputErr with _ | er <;>
      rcases ht : e.isTerminal with _ | _ <;>
        rcases hs : e.setRawErr with _ | er2 <;>
          simp [attachStdio, attachSelect, ho, hi, ht, hs]

/-- Counterexample to C4 as stated, in two parts.  First, when the
input-to-remote loop finishes first and its copy ended with a non-nil error,
attachStdio returns that error immediately, without waiting for the output
loop — contradicting the claim that the call blocks until the output loop
finishes for every way the input loop can end.  Second, on terminal stdin
with the output loop finishing first with an error, the value returned is the
deferred RestoreTerminal result (nil here) and not that loop result —
contradicting the claim that the call returns with the output loop result. -/
theorem C4_teardown_counterexample :
    (c4Env.isTerminal = false
      ∧ c4Env.outputFirst = false
      ∧ c4Env.inputErr = some "use of closed connection"
      ∧ (attachStdio c4Env).waitedForOutput = false
      ∧ (attachStdio c4Env).result = some "use of closed connection")
    ∧ (c4tEnv.isTerminal = true
      ∧ c4tEnv.setRawErr = none
      ∧ c4tEnv.outputFirst = true
      ∧ c4tEnv.outputErr = some "unexpected EOF"
      ∧ (attachStdio c4tEnv).result = none) :=
  ⟨⟨rfl, rfl, rfl, rfl, rfl⟩, ⟨rfl, rfl, rfl, rfl, rfl⟩⟩

/-- Witness for C4 applied at the concrete environment c4Env. -/
theorem C4_teardown_witness :
    ((c4Env.outputFirst = true → attachSelect c4Env = ⟨c4Env.outputErr, true, false⟩)
      ∧ (c4Env.outputFirst = false →
          (attachSelect c4Env).inputHalfClosed = true
          ∧ (c4Env.inputErr = none →
              (attachSelect c4Env).result = c4Env.outputErr
                ∧ (attachSelect c4Env).waitedForOutput = true)
          ∧ (∀ er, c4Env.inputErr = some er →
              (attachSelect c4Env).result = some er
                ∧ (attachSelect c4Env).waitedForOutput = false)))
    ∧ (c4Env.isTerminal = false → attachStdio c4Env = attachSelect c4Env)
    ∧ (c4Env.isTerminal = true → c4Env.setRawErr = none →
        (attachStdio c4Env).result = c4Env.restoreErr
        ∧ (attachStdio c4Env).waitedForOutput = (attachSelect c4Env).waitedForOutput
        ∧ (attachStdio c4Env).inputHalfClosed = (attachSelect c4Env).inputHalfClosed)
    ∧ (c4Env.isTerminal = true → ∀ er, c4Env.setRawErr = some er →
        attachStdio c4Env = ⟨some er, false, false⟩) :=
  C4_teardown c4Env

/-- C9 (confirmed): when local stdin is a terminal and SetRawTerminal
succeeds, the error attachStdio returns is the result of the deferred
RestoreTerminal call, which overwrites the named return value on every path
through the select; in particular a successful restore yields nil even when a
copy loop ended with a non-nil error. -/
theorem C9_restore_result (e : AttachEnv) (ht : e.isTerminal = true)
    (hs : e.setRawErr = none) : (attachStdio e).result = e.restoreErr := by
  unfold attachStdio
  rw [ht, hs]
  rfl

/-- Witness for C9: with a terminal, successful raw-mode setup and successful
restore, attachStdio returns nil even though the output copy loop ended with
an error. -/
theorem C9_restore_result_witness :
    c9Env.isTerminal = true
    ∧ c9Env.setRawErr = none
    ∧ c9Env.outputErr = some "read error"
    ∧ c9Env.restoreErr = none
    ∧ (attachStdio c9Env).result = none :=
  ⟨rfl, rfl, rfl, rfl, C9_restore_result c9Env rfl rfl⟩

/-- C7 (confirmed): in the one-shot query path of sqlCmd.Execute (non-empty
query, and the copy of the response stream to stdout succeeded), the command
returns nil exactly when the exit-code future delivers 0, and otherwise
returns the error reporting that status. -/
theorem C7_exit_status (query : String) (copyErr : Option String) (exitCode : Int)
    (attachRes : Option String) (hq : query ≠ "") (hc : copyErr = none) :
    (executeRunPhase query copyErr exitCode attachRes = none ↔ exitCode = 0)
    ∧ (exitCode ≠ 0 → executeRunPhase query copyErr exitCode attachRes
        = some ("MySQL exited with status " ++ toString exitCode)) := by
  unfold executeRunPhase
  rw [if_pos hq, hc]
  by_cases hz : exitCode = 0 <;> simp [hz]

/-- Witness for C7: query SELECT 1, successful copy, exit status 0 yields a
nil return, and the non-zero branch is characterized. -/
theorem C7_exit_status_witness :
    ("SELECT 1" : String) ≠ ""
    ∧ ((executeRunPhase "SELECT 1" none 0 (some "unused") = none ↔ (0 : Int) = 0)
      ∧ ((0 : Int) ≠ 0 → executeRunPhase "SELECT 1" none 0 (some "unused")
          = some ("MySQL exited with status " ++ toString (0 : Int)))) :=
  ⟨by decide, C7_exit_status "SELECT 1" none 0 (some "unused") (by decide) rfl⟩

/-- C10 (code bug): the claim states that the pingDB helper goroutine sends
on the done channel at most once and that, when the initial SQL call returns
an error, the goroutine returns without touching the stream.  The code has no
return statement in either error branch: with a failed SQL call the goroutine
still reaches stream.Recv() on the nil stream, and with a failed Recv it
falls through to the unconditional final send, sending on done twice. -/
theorem C10_ping_goroutine_bug :
    PingOp.recvCall ∈ pingGoroutine (some "connection refused") none
    ∧ (pingGoroutine none (some "EOF")).countP isSendDone = 2
    ∧ (pingGoroutine none none).countP isSendDone = 1 :=
  ⟨by decide, by decide, by decide⟩

/-! ### Concrete evaluations of the embedding -/

example : parseTolerant "1.2.0" = some ⟨1, 2, 0, [], []⟩ := by decide
example : parseTolerant "v1.2" = some ⟨1, 2, 0, [], []⟩ := by decide
example : parseTolerant "1.0.0-beta.1" = some ⟨1, 0, 0, [⟨"beta", 0, false⟩, ⟨"", 1, true⟩], []⟩ := by
  decide
example : parseTolerant "dev" = none := by decide
example : parseTolerant "" = none := by decide
example : parseTolerant "1.2.3+a.b" = some ⟨1, 2, 3, [], ["a", "b"]⟩ := by decide
example : parseTolerant "01.2.3" = none := by decide
example : versionToString ⟨1, 0, 0, [⟨"beta", 0, false⟩, ⟨"", 1, true⟩], []⟩ = "1.0.0-beta.1" := by
  decide
example : vcomp ⟨1, 0, 0, [⟨"beta", 0, false⟩], []⟩ ⟨1, 0, 0, [], []⟩ = .lt := by decide
example :
    GetCompatibleTag (okHttp "t") (okHttp ["1.2.1", "1.3.0", "2.0.0"]) "img" "1.2.0"
      = .ok ("v1.3.0", true) := by decide
example :
    GetCompatibleTag (okHttp "t") (okHttp ["0.5.1", "0.6.0"]) "img" "0.5.0"
      = .ok ("v0.5.1", true) := by decide
example :
    GetCompatibleTag (okHttp "t") (okHttp ["1.0.0-beta.1", "1.0.0"]) "img" "1.0.0-beta.1"
      = .ok ("v1.0.0-beta.1", true) := by decide
example :
    GetCompatibleTag (okHttp "t") (okHttp ["0.0.0"]) "img" "0.0.0"
      = .error "cannot find compatible image in docker registry for img" := by decide
